import Mathlib

/-!
Verification development for the feature-extraction pipeline for
business-relationship graphs (notebook `train.ipynb`).

The pipeline is embedded shallowly over `ℚ`:
torch tensor rows become `List ℚ`, the DGL graph becomes an explicit
edge list with per-edge weight and direction flag, and the
message-passing layers (`BiDirectionalGCN`, `GATWithSelfLoop`) become
pure per-node aggregation functions.

Two levels of message-passing semantics are modelled.  The plain
forward functions (`bigcnForward`, `gatForward`) apply the
message/reduce/apply formulas uniformly at every node; this agrees with
DGL `update_all` at every node with at least one incoming edge.  DGL
itself, however, skips the reduce UDF at zero-in-degree nodes (degree
bucketing) and downgrades `update_all` to a no-op on an edge-free
graph; the `...DGL` variants (`bigcnForwardDGL`, `gatForwardDGL`,
`classifierSingleDGL`) capture that library behaviour: a GAT node with
no incoming edges keeps its stale input row, and the BiGCN node-apply
step fails on an edge-free graph because the `h0`/`h1` fields were
never created (a `KeyError` at run time).

Softmax is parametrised by an abstract exponential weight
`E : ℚ → ℚ` (assumed positive where needed), since `Real.exp` is not
computable; the statements about attention depend only on positivity.
-/

namespace BizGraph

/-! ### Vector primitives (torch tensor rows over ℚ) -/

/-- Dot product of two equal-width vectors. -/
def dot (xs ys : List ℚ) : ℚ := (List.zipWith (fun a b => a * b) xs ys).sum

/-- Elementwise sum of two vectors. -/
def addVec (xs ys : List ℚ) : List ℚ := List.zipWith (fun a b => a + b) xs ys

/-- Scale a vector by a scalar (broadcast multiply). -/
def scaleVec (c : ℚ) (xs : List ℚ) : List ℚ := xs.map (fun a => c * a)

/-- Sum of a list of (equal-width) vectors, as torch sums a stacked
tensor along its stacking dimension; the empty sum is the zero
vector of width `d`. -/
def sumVecs (d : ℕ) (vs : List (List ℚ)) : List ℚ :=
  match vs with
  | [] => List.replicate d 0
  | v :: rest => rest.foldl addVec v

/-- Matrix-vector product (bias-free linear map), rows of `w` against `x`. -/
def matVec (w : List (List ℚ)) (x : List ℚ) : List ℚ := w.map (fun row => dot row x)

/-- Affine layer with weight rows `w` and bias `b` (torch `nn.Linear`). -/
def linear (w : List (List ℚ)) (b : List ℚ) (x : List ℚ) : List ℚ :=
  List.zipWith (fun row bi => dot row x + bi) w b

/-- Rectified linear unit. -/
def relu (x : ℚ) : ℚ := max x 0

/-- Leaky rectified linear unit with the torch default slope 0.01. -/
def leakyRelu (x : ℚ) : ℚ := if x < 0 then x / 100 else x

/-- Elementwise mean of a nonempty list of vectors (torch `mean` along
dimension 0). -/
def meanVec (vs : List (List ℚ)) : List ℚ :=
  (sumVecs (vs.headD []).length vs).map (fun a => a / (vs.length : ℚ))

/-- Elementwise maximum of a nonempty list of vectors (torch `max` along
dimension 0). -/
def maxVec (vs : List (List ℚ)) : List ℚ :=
  match vs with
  | [] => []
  | v :: rest => rest.foldl (List.zipWith max) v

/-! ### Graph data model

A directed graph as materialised by the notebook: node indices
`0 .. numNodes-1`, edges carrying a weight (the `weight` edge datum) and
a direction flag (the `direction` edge datum, 0 for an original edge and
1 for a mirrored reverse edge), and the node feature matrix `feat`
(the `h` node datum). -/

structure Edge where
  src : ℕ
  dst : ℕ
  weight : ℚ
  direction : ℕ
deriving DecidableEq, Repr

structure Graph where
  numNodes : ℕ
  edges : List Edge
  feat : List (List ℚ)
deriving DecidableEq, Repr

/-- Incoming edges of node `v` (the mailbox of `v` is built from these). -/
def inbound (es : List Edge) (v : ℕ) : List Edge := es.filter (fun e => e.dst == v)

/-- Well-formedness: edge endpoints are in range and there is one feature
row per node. -/
def Graph.wf (g : Graph) : Prop :=
  (∀ e ∈ g.edges, e.src < g.numNodes ∧ e.dst < g.numNodes) ∧
    g.feat.length = g.numNodes

/-! ### Graph Builder -/

/-- An input edge triple `(src, dst, weight)` as parsed from an edge list. -/
structure RawEdge where
  src : ℕ
  dst : ℕ
  weight : ℚ
deriving DecidableEq, Repr

/-- One-hot row of width `f` with the 1 in column `i`. -/
def oneHot (f i : ℕ) : List ℚ := (List.range f).map (fun j => if j = i then 1 else 0)

/-- Model of `make_node_feature(n_nodes, n_features)`: an identity block
stacked on rows whose last column is 1.  Returns `none` exactly when the
torch code raises: `torch.zeros` with a negative row count
(`n_nodes < n_features`), or indexing column `-1` of a zero-width tensor
(`n_features = 0`). -/
def makeNodeFeature (nNodes nFeatures : ℕ) : Option (List (List ℚ)) :=
  if nFeatures = 0 ∨ nNodes < nFeatures then none
  else some ((List.range nFeatures).map (oneHot nFeatures) ++
    List.replicate (nNodes - nFeatures) (oneHot nFeatures (nFeatures - 1)))

/-- Largest node id mentioned by an edge list (`last_id` in the notebook). -/
def maxNodeId (es : List RawEdge) : ℕ := (es.map (fun e => max e.src e.dst)).foldr max 0

/-- Forward edge emitted for an input triple: same endpoints, direction 0. -/
def fwdEdge (e : RawEdge) : Edge := ⟨e.src, e.dst, e.weight, 0⟩

/-- Reverse edge emitted for an input triple: swapped endpoints, same
weight, direction 1. -/
def revEdge (e : RawEdge) : Edge := ⟨e.dst, e.src, e.weight, 1⟩

/-- Model of the graph-construction cell: node count is the largest
observed id plus one (absent ids become isolated nodes), node features
come from `make_node_feature`, original edges get direction 0 and a
mirrored copy of every edge is appended with direction 1 and the same
weight.  Returns `none` when the notebook code raises: on an empty edge
list (`sorted(nodes)[-1]` fails) or when `make_node_feature` fails. -/
def buildGraph (nFeatures : ℕ) (es : List RawEdge) : Option Graph :=
  match es with
  | [] => none
  | _ :: _ =>
    (makeNodeFeature (maxNodeId es + 1) nFeatures).map (fun feat =>
      ⟨maxNodeId es + 1, es.map fwdEdge ++ es.map revEdge, feat⟩)

/-- Re-extract the original edge list from a built graph, ignoring the
mirrored edges (direction flag 1). -/
def extractEdgeList (g : Graph) : List RawEdge :=
  (g.edges.filter (fun e => e.direction == 0)).map (fun e => ⟨e.src, e.dst, e.weight⟩)

/-! ### BiDirectionalGCN layer -/

structure BiGCNParams where
  inFeats : ℕ
  w : List (List ℚ)
  b : List ℚ
deriving DecidableEq, Repr

/-- Model of `BiDirectionalGCN.message_func` for one edge: the source
feature row scaled by the edge weight, tagged with the direction flag. -/
def bigcnMessage (h : List (List ℚ)) (e : Edge) : List ℚ × ℕ :=
  (scaleVec e.weight (h.getD e.src []), e.direction)

/-- Model of `BiDirectionalGCN.reduce_func` followed by
`node_apply_func` at a single node `v`: `h0` multiplies each message by
its raw direction flag before summing, the flag is flipped by
`(direction + 1) % 2`, `h1` multiplies by the flipped flag, and the
update is `activation(fc(cat(h[v], h0, h1)))`. -/
def bigcnNode (p : BiGCNParams) (act : ℚ → ℚ) (g : Graph) (h : List (List ℚ))
    (v : ℕ) : List ℚ :=
  let msgs := (inbound g.edges v).map (bigcnMessage h)
  let h0 := sumVecs p.inFeats (msgs.map (fun m => scaleVec ((m.2 : ℚ)) m.1))
  let h1 := sumVecs p.inFeats (msgs.map (fun m => scaleVec ((((m.2 + 1) % 2 : ℕ) : ℚ)) m.1))
  (linear p.w p.b (h.getD v [] ++ h0 ++ h1)).map act

/-- Model of `BiDirectionalGCN.forward` with the reduce formula applied
uniformly at every node.  This matches DGL on every graph with at least
one edge: nodes that receive no message get zero-filled `h0`/`h1` rows
from the frame zero-initializer, which is exactly the empty-sum case of
`bigcnNode`.  On an edge-free graph the real `update_all` is a no-op
and `node_apply_func` raises instead; see `bigcnForwardDGL`. -/
def bigcnForward (p : BiGCNParams) (act : ℚ → ℚ) (g : Graph)
    (h : List (List ℚ)) : List (List ℚ) :=
  (List.range g.numNodes).map (bigcnNode p act g h)

/-- Modelled from the spec (claim C1 wording): the update formula with
`h0` the sum of incoming messages over edges with direction 0 and `h1`
the sum over edges with direction 1. -/
def bigcnSpecNode (p : BiGCNParams) (act : ℚ → ℚ) (g : Graph)
    (h : List (List ℚ)) (v : ℕ) : List ℚ :=
  let msgs := (inbound g.edges v).map (bigcnMessage h)
  let h0 := sumVecs p.inFeats ((msgs.filter (fun m => m.2 == 0)).map (fun m => m.1))
  let h1 := sumVecs p.inFeats ((msgs.filter (fun m => m.2 == 1)).map (fun m => m.1))
  (linear p.w p.b (h.getD v [] ++ h0 ++ h1)).map act

/-- Modelled from the spec (claim C1 wording), whole-layer version. -/
def bigcnSpecForward (p : BiGCNParams) (act : ℚ → ℚ) (g : Graph)
    (h : List (List ℚ)) : List (List ℚ) :=
  (List.range g.numNodes).map (bigcnSpecNode p act g h)

/-- The amended per-node formula: like `bigcnSpecNode` but with the two
directional sums swapped — the slot the code calls `h0` holds the sum
over edges with direction flag 1, and `h1` the sum over flag 0. -/
def bigcnSwapNode (p : BiGCNParams) (act : ℚ → ℚ) (g : Graph)
    (h : List (List ℚ)) (v : ℕ) : List ℚ :=
  let msgs := (inbound g.edges v).map (bigcnMessage h)
  let h0 := sumVecs p.inFeats ((msgs.filter (fun m => m.2 == 1)).map (fun m => m.1))
  let h1 := sumVecs p.inFeats ((msgs.filter (fun m => m.2 == 0)).map (fun m => m.1))
  (linear p.w p.b (h.getD v [] ++ h0 ++ h1)).map act

/-- Amended whole-layer version with the two directional sums swapped. -/
def bigcnSwapForward (p : BiGCNParams) (act : ℚ → ℚ) (g : Graph)
    (h : List (List ℚ)) : List (List ℚ) :=
  (List.range g.numNodes).map (bigcnSwapNode p act g h)

/-! ### GATWithSelfLoop layer

The layer has four bias-free linear maps: `fc` (neighbour projection),
`attn_fc` (edge attention, one output row, kept here as the vector
`aAttn`), `self_fc` (self projection) and `self_attn_fc` (self
attention, kept as the vector `aSelf`). -/

structure GATParams where
  outDim : ℕ
  wFc : List (List ℚ)
  aAttn : List ℚ
  wSelf : List (List ℚ)
  aSelf : List ℚ
deriving DecidableEq, Repr

/-- Neighbour projection `z[v] = fc(h[v])`. -/
def gatZ (p : GATParams) (h : List (List ℚ)) (v : ℕ) : List ℚ :=
  matVec p.wFc (h.getD v [])

/-- Self projection `z_self[v] = self_fc(h[v])`. -/
def gatZSelf (p : GATParams) (h : List (List ℚ)) (v : ℕ) : List ℚ :=
  matVec p.wSelf (h.getD v [])

/-- Self attention logit `e_self[v] = leaky_relu(self_attn_fc(z_self[v]))`. -/
def gatESelf (p : GATParams) (h : List (List ℚ)) (v : ℕ) : ℚ :=
  leakyRelu (dot p.aSelf (gatZSelf p h v))

/-- Edge attention logit (model of `edge_attention`):
`e = leaky_relu(attn_fc(cat(z[src], z[dst])))`. -/
def gatEdgeE (p : GATParams) (h : List (List ℚ)) (e : Edge) : ℚ :=
  leakyRelu (dot p.aAttn (gatZ p h e.src ++ gatZ p h e.dst))

/-- Softmax with an abstract positive exponential weight `E`. -/
def softmax (E : ℚ → ℚ) (xs : List ℚ) : List ℚ :=
  xs.map (fun x => E x / (xs.map E).sum)

/-- Attention logits gathered at node `v` (model of the `reduce_func`
concatenation): incoming-edge logits followed by the self logit. -/
def gatLogits (p : GATParams) (h : List (List ℚ)) (es : List Edge) (v : ℕ) : List ℚ :=
  (inbound es v).map (gatEdgeE p h) ++ [gatESelf p h v]

/-- Projected values gathered at node `v` in the same order as
`gatLogits`: incoming-neighbour projections followed by the self
projection. -/
def gatZs (p : GATParams) (h : List (List ℚ)) (es : List Edge) (v : ℕ) :
    List (List ℚ) :=
  (inbound es v).map (fun e => gatZ p h e.src) ++ [gatZSelf p h v]

/-- Attention weights at node `v`: joint softmax over the incoming-edge
logits and the self logit. -/
def gatAlphas (E : ℚ → ℚ) (p : GATParams) (h : List (List ℚ)) (es : List Edge)
    (v : ℕ) : List ℚ :=
  softmax E (gatLogits p h es v)

/-- Model of the tail of `GATWithSelfLoop.reduce_func` at node `v`:
`h[v] = activation(sum(alpha * z))` over the gathered neighbour and
self entries. -/
def gatNode (E : ℚ → ℚ) (p : GATParams) (act : ℚ → ℚ) (es : List Edge)
    (h : List (List ℚ)) (v : ℕ) : List ℚ :=
  (sumVecs p.outDim
    (List.zipWith scaleVec (gatAlphas E p h es v) (gatZs p h es v))).map act

/-- Model of `GATWithSelfLoop.forward` with the reduce formula applied
uniformly at every node.  This matches DGL at every node with at least
one incoming edge; at a zero-in-degree node DGL never invokes
`reduce_func`, so the real output row there is the stale layer input,
not the value of the reduce formula — see `gatForwardDGL`. -/
def gatForward (E : ℚ → ℚ) (p : GATParams) (act : ℚ → ℚ) (g : Graph)
    (h : List (List ℚ)) : List (List ℚ) :=
  (List.range g.numNodes).map (gatNode E p act g.edges h)

/-- Model of `GATWithSelfLoop.forward` under the library semantics of
`update_all`: the reduce UDF runs only at nodes with at least one
incoming message, so a zero-in-degree node keeps its stale input row
(the `h` field already exists and is never overwritten there); in
particular on an edge-free graph every row is returned unchanged. -/
def gatForwardDGL (E : ℚ → ℚ) (p : GATParams) (act : ℚ → ℚ) (g : Graph)
    (h : List (List ℚ)) : List (List ℚ) :=
  (List.range g.numNodes).map (fun v =>
    if (inbound g.edges v).isEmpty then h.getD v []
    else gatNode E p act g.edges h v)

/-! ### Classifier: stacked layers, readout, head -/

structure ClassifierParams where
  hiddenDim : ℕ
  gcn : BiGCNParams
  gat : GATParams
  w1 : List (List ℚ)
  b1 : List ℚ
  w2 : List (List ℚ)
  b2 : List ℚ
deriving DecidableEq, Repr

/-- Failure modes of the readout.  The notebook itself defines no error
type; `emptyReduction` models the torch runtime error raised by
`torch.max` over an empty remainder slice, and `insufficientNodes`
models the dedicated `InsufficientNodesError` named by the spec (never
raised by the notebook code). -/
inductive ReadoutError where
  | emptyReduction
  | insufficientNodes
deriving DecidableEq, Repr

/-- Failure modes of the full pipeline under the library semantics.
`missingField` models the `KeyError` raised by
`BiDirectionalGCN.node_apply_func` when `update_all` was a no-op on an
edge-free graph and the `h0`/`h1` fields were never created;
`emptyReduction` and `insufficientNodes` are as in `ReadoutError`. -/
inductive PipelineError where
  | missingField
  | emptyReduction
  | insufficientNodes
deriving DecidableEq, Repr

/-- Embed a readout failure into the pipeline failure modes. -/
def liftReadoutError : ReadoutError → PipelineError
  | ReadoutError.emptyReduction => PipelineError.emptyReduction
  | ReadoutError.insufficientNodes => PipelineError.insufficientNodes

/-- The flat readout vector: the first 7 embedding rows (slice `[0:7]`)
concatenated with the elementwise mean and the elementwise max of the
remaining rows (slice `[7:]`). -/
def readoutVec (h : List (List ℚ)) : List ℚ :=
  (h.take 7).flatten ++ meanVec (h.drop 7) ++ maxVec (h.drop 7)

/-- Model of the per-graph readout inside `Classifier.forward`.  When
the remainder slice `[7:]` is empty (fewer than 8 rows), the torch max
reduction raises, modelled as `emptyReduction`; otherwise the flat
readout vector is produced. -/
def readout (h : List (List ℚ)) : Except ReadoutError (List ℚ) :=
  if h.length ≤ 7 then Except.error ReadoutError.emptyReduction
  else Except.ok (readoutVec h)

/-- Model of the fully connected head: `fc2(relu(fc1(x)))`. -/
def classifierHead (c : ClassifierParams) (x : List ℚ) : List ℚ :=
  linear c.w2 c.b2 ((linear c.w1 c.b1 x).map relu)

/-- Node embeddings after the two stacked layers of `Classifier.forward`
(both constructed with `F.relu` activation). -/
def pipelineH (E : ℚ → ℚ) (c : ClassifierParams) (g : Graph) : List (List ℚ) :=
  gatForward E c.gat relu g (bigcnForward c.gcn relu g g.feat)

/-- Full single-graph forward pass: layers, readout, head. -/
def classifierSingle (E : ℚ → ℚ) (c : ClassifierParams) (g : Graph) :
    Except ReadoutError (List ℚ) :=
  (readout (pipelineH E c g)).map (classifierHead c)

/-- Model of `BiDirectionalGCN.forward` under the library semantics: on
an edge-free graph `update_all` is a no-op, the `h0`/`h1` fields are
never created, and `node_apply_func` raises a `KeyError`; on any graph
with at least one edge the uniform per-node formula applies (nodes that
receive no message get zero-filled `h0`/`h1` rows from the frame
zero-initializer). -/
def bigcnForwardDGL (p : BiGCNParams) (act : ℚ → ℚ) (g : Graph)
    (h : List (List ℚ)) : Except PipelineError (List (List ℚ)) :=
  match g.edges with
  | [] => Except.error PipelineError.missingField
  | _ :: _ => Except.ok (bigcnForward p act g h)

/-- Full single-graph forward pass under the library semantics:
BiGCN layer (failing on an edge-free graph), GAT layer with stale rows
at zero-in-degree nodes, readout, head. -/
def classifierSingleDGL (E : ℚ → ℚ) (c : ClassifierParams) (g : Graph) :
    Except PipelineError (List ℚ) :=
  match bigcnForwardDGL c.gcn relu g g.feat with
  | Except.error e => Except.error e
  | Except.ok h1 =>
    match readout (gatForwardDGL E c.gat relu g h1) with
    | Except.error e => Except.error (liftReadoutError e)
    | Except.ok v => Except.ok (classifierHead c v)

/-! ### Batching (disjoint union with node-index offsets) -/

/-- Offset the endpoints of an edge by `n` (node relabelling of the
second batch component). -/
def shiftEdge (n : ℕ) (e : Edge) : Edge := ⟨n + e.src, n + e.dst, e.weight, e.direction⟩

/-- Model of `dgl.batch` on two graphs: disjoint union with the nodes of
the second graph offset by the node count of the first. -/
def batch2 (g₁ g₂ : Graph) : Graph :=
  ⟨g₁.numNodes + g₂.numNodes,
   g₁.edges ++ g₂.edges.map (shiftEdge g₁.numNodes),
   g₁.feat ++ g₂.feat⟩

/-- Full batched forward pass on two graphs: layers on the batched
graph, then per-graph readout and head over the recorded node ranges
(model of the `dgl.unbatch` loop). -/
def classifierBatch2 (E : ℚ → ℚ) (c : ClassifierParams) (g₁ g₂ : Graph) :
    Except ReadoutError (List ℚ) × Except ReadoutError (List ℚ) :=
  let hb := pipelineH E c (batch2 g₁ g₂)
  ((readout (hb.take g₁.numNodes)).map (classifierHead c),
   (readout (hb.drop g₁.numNodes)).map (classifierHead c))

/-! ### Concrete instances used by witnesses and counterexamples -/

/-- The graph built from the scenario edge list `[(0,1,2.0),(1,2,1.0)]`
with feature width 2. -/
def gScenario : Graph :=
  ⟨3, [⟨0, 1, 2, 0⟩, ⟨1, 2, 1, 0⟩, ⟨1, 0, 2, 1⟩, ⟨2, 1, 1, 1⟩], [[1, 0], [0, 1], [0, 1]]⟩

/-- The weight-free part of an edge: endpoints and direction flag. -/
def edgeShape (e : Edge) : ℕ × ℕ × ℕ := (e.src, e.dst, e.direction)

/-- A trivial positive softmax weight (used by witnesses). -/
def expOne : ℚ → ℚ := fun _ => 1

/-- Tiny one-dimensional GAT parameters (used by witnesses). -/
def pGat : GATParams := ⟨1, [[1]], [1, 1], [[1]], [1]⟩

/-- One-dimensional GAT parameters whose self projection doubles the
input, so that a stale input row is distinguishable from
`activation(z_self)` (used by the C2 failing input). -/
def pGat2 : GATParams := ⟨1, [[1]], [1, 1], [[2]], [1]⟩

/-- A single isolated node (used by witnesses). -/
def gIso : Graph := ⟨1, [], [[1]]⟩

/-- A one-node graph with a self-loop of weight 5 (used by witnesses). -/
def gW1 : Graph := ⟨1, [⟨0, 0, 5, 0⟩], [[1]]⟩

/-- The same topology as `gW1` but with edge weight 7 (used by witnesses). -/
def gW2 : Graph := ⟨1, [⟨0, 0, 7, 0⟩], [[1]]⟩

/-- One-dimensional BiGCN parameters whose linear layer reads only the
`h0` slot of the concatenation (used by the C1 counterexample). -/
def pBi : BiGCNParams := ⟨1, [[0, 1, 0]], [0]⟩

/-- A two-node graph with a single forward (direction 0) edge `0 → 1` of
weight 1 (used by the C1 counterexample). -/
def gBi : Graph := ⟨2, [⟨0, 1, 1, 0⟩], [[1], [2]]⟩

/-- Tiny classifier parameters with hidden width 1 (used by witnesses). -/
def cTiny : ClassifierParams :=
  ⟨1, pBi, pGat, [[1, 1, 1, 1, 1, 1, 1, 1, 1]], [0], [[1]], [0]⟩

/-- A two-node edgeless graph, below the 8-node readout threshold
(used by witnesses). -/
def gSmall : Graph := ⟨2, [], [[1], [1]]⟩

/-- An eight-node edgeless graph, exactly at the readout threshold
(used by witnesses). -/
def g8 : Graph := ⟨8, [], List.replicate 8 [1]⟩

/-! ## Theorems -/

lemma buildGraph_some {F : ℕ} {es : List RawEdge} {g : Graph}
    (hb : buildGraph F es = some g) :
    g.numNodes = maxNodeId es + 1 ∧
    g.edges = es.map fwdEdge ++ es.map revEdge ∧
    makeNodeFeature (maxNodeId es + 1) F = some g.feat := by
  cases es with
  | nil => simp [buildGraph] at hb
  | cons e rest =>
    rw [buildGraph] at hb
    cases hmf : makeNodeFeature (maxNodeId (e :: rest) + 1) F with
    | none => rw [hmf] at hb; simp at hb
    | some feat =>
      rw [hmf] at hb
      simp only [Option.map_some'] at hb
      injection hb with hb
      subst hb
      exact ⟨rfl, rfl, rfl⟩

lemma makeNodeFeature_some {n F : ℕ} {rows : List (List ℚ)}
    (h : makeNodeFeature n F = some rows) :
    1 ≤ F ∧ F ≤ n ∧
      rows = (List.range F).map (oneHot F) ++
        List.replicate (n - F) (oneHot F (F - 1)) := by
  rw [makeNodeFeature] at h
  split at h
  · exact absurd h (by simp)
  · next hcond =>
    push_neg at hcond
    injection h with h
    exact ⟨by omega, by omega, h.symm⟩

/-- C8: building a graph from an edge list and re-extracting, ignoring
the mirrored (direction 1) edges, returns the original edge list with
weights preserved. -/
theorem c8_roundtrip (F : ℕ) (es : List RawEdge) (g : Graph)
    (hb : buildGraph F es = some g) : extractEdgeList g = es := by
  obtain ⟨-, hedges, -⟩ := buildGraph_some hb
  rw [extractEdgeList, hedges, List.filter_append]
  have h1 : (es.map fwdEdge).filter (fun e => e.direction == 0) = es.map fwdEdge := by
    apply List.filter_eq_self.mpr
    intro a ha
    obtain ⟨r, -, rfl⟩ := List.mem_map.mp ha
    rfl
  have h2 : (es.map revEdge).filter (fun e => e.direction == 0) = [] := by
    apply List.filter_eq_nil_iff.mpr
    intro a ha
    obtain ⟨r, -, rfl⟩ := List.mem_map.mp ha
    simp [revEdge]
  rw [h1, h2, List.append_nil, List.map_map]
  have h3 : es.map ((fun e : Edge => RawEdge.mk e.src e.dst e.weight) ∘ fwdEdge) =
      es.map id := List.map_congr_left (fun a _ => rfl)
  rw [h3, List.map_id]

/-- Witness for C8 at the scenario edge list. -/
theorem c8_roundtrip_witness :
    buildGraph 2 [⟨0, 1, 2⟩, ⟨1, 2, 1⟩] = some gScenario ∧
      extractEdgeList gScenario = [⟨0, 1, 2⟩, ⟨1, 2, 1⟩] :=
  ⟨rfl, c8_roundtrip 2 [⟨0, 1, 2⟩, ⟨1, 2, 1⟩] gScenario rfl⟩

/-- C4: a built graph has exactly twice as many directed edges as the
input list; each input triple contributes exactly one forward edge with
direction 0 and exactly one mirrored reverse edge with direction 1
carrying the identical weight. -/
theorem c4_bidirectional (F : ℕ) (es : List RawEdge) (g : Graph)
    (hb : buildGraph F es = some g)
    (hnd : (es.map (fun e => (e.src, e.dst))).Nodup) :
    g.edges.length = 2 * es.length ∧
    ∀ t ∈ es, g.edges.count (fwdEdge t) = 1 ∧ g.edges.count (revEdge t) = 1 := by
  obtain ⟨-, hedges, -⟩ := buildGraph_some hb
  have hes : es.Nodup := hnd.of_map _
  constructor
  · rw [hedges, List.length_append, List.length_map, List.length_map]; ring
  · intro t ht
    have hfwd_inj : Function.Injective fwdEdge := by
      intro a b hab
      cases a; cases b
      simpa [fwdEdge, Edge.mk.injEq, RawEdge.mk.injEq] using hab
    have hrev_inj : Function.Injective revEdge := by
      intro a b hab
      cases a; cases b
      simp only [revEdge, Edge.mk.injEq, RawEdge.mk.injEq] at hab ⊢
      tauto
    have hcount : es.count t = 1 := List.count_eq_one_of_mem hes ht
    constructor
    · rw [hedges, List.count_append]
      rw [List.count_map_of_injective es fwdEdge hfwd_inj t, hcount]
      have : (es.map revEdge).count (fwdEdge t) = 0 := by
        apply List.count_eq_zero.mpr
        intro hmem
        obtain ⟨r, -, heq⟩ := List.mem_map.mp hmem
        simp [revEdge, fwdEdge, Edge.mk.injEq] at heq
      omega
    · rw [hedges, List.count_append]
      rw [List.count_map_of_injective es revEdge hrev_inj t, hcount]
      have : (es.map fwdEdge).count (revEdge t) = 0 := by
        apply List.count_eq_zero.mpr
        intro hmem
        obtain ⟨r, -, heq⟩ := List.mem_map.mp hmem
        simp [revEdge, fwdEdge, Edge.mk.injEq] at heq
      omega

/-- Witness for C4 at the scenario edge list. -/
theorem c4_bidirectional_witness :
    buildGraph 2 [⟨0, 1, 2⟩, ⟨1, 2, 1⟩] = some gScenario ∧
      ([(⟨0, 1, 2⟩ : RawEdge), ⟨1, 2, 1⟩].map (fun e => (e.src, e.dst))).Nodup ∧
      (gScenario.edges.length = 2 * 2 ∧
        ∀ t ∈ [(⟨0, 1, 2⟩ : RawEdge), ⟨1, 2, 1⟩],
          gScenario.edges.count (fwdEdge t) = 1 ∧
          gScenario.edges.count (revEdge t) = 1) :=
  ⟨rfl, by decide,
   c4_bidirectional 2 [⟨0, 1, 2⟩, ⟨1, 2, 1⟩] gScenario rfl (by decide)⟩

lemma oneHot_mem_01 (F i : ℕ) : ∀ x ∈ oneHot F i, x = 1 ∨ x = 0 := by
  intro x hx
  obtain ⟨j, -, rfl⟩ := List.mem_map.mp hx
  split
  · exact Or.inl rfl
  · exact Or.inr rfl

lemma oneHot_count_aux (F i : ℕ) :
    (((List.range F).map (fun j => if j = i then (1 : ℚ) else 0)).count 1) =
      if i < F then 1 else 0 := by
  induction F with
  | zero => simp
  | succ n ih =>
    rw [List.range_succ, List.map_append, List.count_append, ih]
    by_cases h : n = i
    · have h1 : ¬ i < n := by omega
      have h2 : i < n + 1 := by omega
      have h4 : ((if n = i then (1 : ℚ) else 0)) = 1 := by simp [h]
      rw [List.map_singleton, h4]
      simp [h1, h2]
    · by_cases h2 : i < n
      · have h3 : i < n + 1 := by omega
        simp only [h2, h3, if_true]
        have : ((if n = i then (1 : ℚ) else 0)) = 0 := by simp [h]
        rw [List.map_singleton, this]
        norm_num
      · have h3 : ¬ i < n + 1 := by omega
        simp only [h2, h3, if_false]
        have : ((if n = i then (1 : ℚ) else 0)) = 0 := by simp [h]
        rw [List.map_singleton, this]
        norm_num

lemma oneHot_count (F i : ℕ) (hi : i < F) : (oneHot F i).count (1 : ℚ) = 1 := by
  rw [oneHot, oneHot_count_aux, if_pos hi]

/-- C5: every feature row of a built graph is one-hot (exactly one entry
1, the rest 0); the first `F` rows form the identity block and every
remaining row has only the last column set; and the scenario edge list
`[(0,1,2.0),(1,2,1.0)]` with `F = 2` gives 3 nodes, 4 directed edges and
feature rows `[[1,0],[0,1],[0,1]]`. -/
theorem c5_onehot (F : ℕ) (es : List RawEdge) (g : Graph)
    (hb : buildGraph F es = some g) :
    (∀ r ∈ g.feat, r.count 1 = 1 ∧ ∀ x ∈ r, x = 1 ∨ x = 0) ∧
    (∀ i, i < F → g.feat.getD i [] = oneHot F i) ∧
    (∀ i, F ≤ i → i < g.numNodes → g.feat.getD i [] = oneHot F (F - 1)) ∧
    (buildGraph 2 [⟨0, 1, 2⟩, ⟨1, 2, 1⟩]).map Graph.numNodes = some 3 ∧
    (buildGraph 2 [⟨0, 1, 2⟩, ⟨1, 2, 1⟩]).map (fun g => g.edges.length) = some 4 ∧
    (buildGraph 2 [⟨0, 1, 2⟩, ⟨1, 2, 1⟩]).map Graph.feat =
      some [[1, 0], [0, 1], [0, 1]] := by
  obtain ⟨hnum, -, hmf⟩ := buildGraph_some hb
  obtain ⟨hF1, hFn, hrows⟩ := makeNodeFeature_some hmf
  have hlast : F - 1 < F := by omega
  refine ⟨?_, ?_, ?_, rfl, rfl, rfl⟩
  · intro r hr
    rw [hrows] at hr
    rcases List.mem_append.mp hr with hr | hr
    · obtain ⟨i, hi, rfl⟩ := List.mem_map.mp hr
      exact ⟨oneHot_count F i (List.mem_range.mp hi), oneHot_mem_01 F i⟩
    · rw [List.eq_of_mem_replicate hr]
      exact ⟨oneHot_count F (F - 1) hlast, oneHot_mem_01 F (F - 1)⟩
  · intro i hi
    rw [hrows]
    rw [List.getD_append _ _ _ i (by simpa using hi)]
    simp [List.getD, List.getElem?_map, List.getElem?_range hi]
  · intro i hiF hin
    rw [hrows]
    have hlen : ((List.range F).map (oneHot F)).length ≤ i := by simpa using hiF
    rw [List.getD_append_right _ _ _ i hlen]
    have hidx : i - ((List.range F).map (oneHot F)).length < maxNodeId es + 1 - F := by
      simp only [List.length_map, List.length_range]
      omega
    simp only [List.length_map, List.length_range] at hidx ⊢
    simp [List.getD, List.getElem?_replicate, hidx]

/-- Witness for C5 at the scenario edge list. -/
theorem c5_onehot_witness :
    buildGraph 2 [⟨0, 1, 2⟩, ⟨1, 2, 1⟩] = some gScenario ∧
      (∀ r ∈ gScenario.feat, r.count 1 = 1 ∧ ∀ x ∈ r, x = 1 ∨ x = 0) :=
  ⟨rfl, (c5_onehot 2 [⟨0, 1, 2⟩, ⟨1, 2, 1⟩] gScenario rfl).1⟩

lemma getD_map_range {α : Type} (f : ℕ → α) (n v : ℕ) (d : α) (hv : v < n) :
    ((List.range n).map f).getD v d = f v := by
  simp [List.getD, List.getElem?_map, List.getElem?_range hv]

lemma scaleVec_one (x : List ℚ) : scaleVec 1 x = x := by
  rw [scaleVec]
  have h : x.map (fun a => (1 : ℚ) * a) = x.map id :=
    List.map_congr_left (fun a _ => one_mul a)
  rw [h, List.map_id]

lemma sum_map_div (xs : List ℚ) (f : ℚ → ℚ) (s : ℚ) :
    (xs.map (fun x => f x / s)).sum = (xs.map f).sum / s := by
  simp only [div_eq_mul_inv]
  exact List.sum_map_mul_right xs f s⁻¹

/-- C3: the attention weights computed at any node — the joint softmax
over all incoming-edge logits together with the self logit — sum to
exactly 1 (hence certainly within floating tolerance), for any positive
exponential weight. -/
theorem c3_alpha_sum (E : ℚ → ℚ) (p : GATParams) (h : List (List ℚ))
    (es : List Edge) (v : ℕ) (hE : ∀ x, 0 < E x) :
    (gatAlphas E p h es v).sum = 1 := by
  rw [gatAlphas, softmax]
  have hne : gatLogits p h es v ≠ [] := by
    rw [gatLogits]
    simp
  have hpos : 0 < ((gatLogits p h es v).map E).sum := by
    apply List.sum_pos
    · intro x hx
      obtain ⟨y, -, rfl⟩ := List.mem_map.mp hx
      exact hE y
    · simpa using hne
  rw [sum_map_div]
  exact div_self (ne_of_gt hpos)

/-- Witness for C3 on a small concrete node. -/
theorem c3_alpha_sum_witness :
    (∀ x, 0 < expOne x) ∧ (gatAlphas expOne pGat [[1]] [] 0).sum = 1 :=
  ⟨fun _ => one_pos, c3_alpha_sum expOne pGat [[1]] [] 0 (fun _ => one_pos)⟩

lemma gatNode_empty_mailbox (E : ℚ → ℚ) (p : GATParams) (act : ℚ → ℚ)
    (es : List Edge) (h : List (List ℚ)) (v : ℕ) (hE : ∀ x, 0 < E x)
    (hin : inbound es v = []) :
    gatNode E p act es h v = (gatZSelf p h v).map act := by
  rw [gatNode, gatAlphas, gatLogits, gatZs, hin]
  simp only [List.map_nil, List.nil_append]
  rw [softmax]
  simp only [List.map_cons, List.map_nil, List.sum_cons, List.sum_nil, add_zero]
  rw [div_self (ne_of_gt (hE _))]
  simp only [List.zipWith_cons_cons, List.zipWith_nil_right]
  rw [scaleVec_one]
  rfl

lemma gatForwardDGL_stale (E : ℚ → ℚ) (p : GATParams) (act : ℚ → ℚ)
    (g : Graph) (h : List (List ℚ)) (v : ℕ) (hv : v < g.numNodes)
    (hin : inbound g.edges v = []) :
    (gatForwardDGL E p act g h).getD v [] = h.getD v [] := by
  rw [gatForwardDGL, getD_map_range _ _ _ _ hv]
  rw [hin]
  rfl

/-- C2 is the intended behaviour but not the implemented one: at node 0
of the two-node graph `gBi` (zero incoming edges, since its single edge
points away), the reduce-function formula would indeed produce
`activation(z_self[0])` — but under the library semantics the reduce
UDF is never invoked at a zero-in-degree node, so the forward pass
returns the stale input row there, which differs from
`activation(z_self[0])`. -/
theorem c2_code_bug :
    inbound gBi.edges 0 = [] ∧
    gatNode expOne pGat2 relu gBi.edges gBi.feat 0 =
      (gatZSelf pGat2 gBi.feat 0).map relu ∧
    (gatForwardDGL expOne pGat2 relu gBi gBi.feat).getD 0 [] =
      gBi.feat.getD 0 [] ∧
    (gatForwardDGL expOne pGat2 relu gBi gBi.feat).getD 0 [] ≠
      (gatZSelf pGat2 gBi.feat 0).map relu := by
  have hin : inbound gBi.edges 0 = [] := rfl
  have hstale : (gatForwardDGL expOne pGat2 relu gBi gBi.feat).getD 0 [] =
      gBi.feat.getD 0 [] :=
    gatForwardDGL_stale expOne pGat2 relu gBi gBi.feat 0 (by decide) hin
  have hself : (gatZSelf pGat2 gBi.feat 0).map relu = [2] := by
    norm_num [gatZSelf, matVec, dot, pGat2, gBi, List.getD, relu]
  refine ⟨hin,
    gatNode_empty_mailbox expOne pGat2 relu gBi.edges gBi.feat 0
      (fun _ => one_pos) hin, hstale, ?_⟩
  rw [hstale, hself]
  norm_num [gBi, List.getD]

lemma inbound_map_shape (es : List Edge) (v : ℕ) :
    (inbound es v).map edgeShape =
      (es.map edgeShape).filter (fun s => s.2.1 == v) :=
  (@List.filter_map Edge (ℕ × ℕ × ℕ) (fun s => s.2.1 == v) edgeShape es).symm

lemma map_factor {γ : Type} {l₁ l₂ : List Edge} (k : ℕ × ℕ × ℕ → γ)
    (h : l₂.map edgeShape = l₁.map edgeShape) :
    l₂.map (fun e => k (edgeShape e)) = l₁.map (fun e => k (edgeShape e)) := by
  have haux : ∀ l : List Edge,
      l.map (fun e => k (edgeShape e)) = (l.map edgeShape).map k := by
    intro l
    rw [List.map_map]
    rfl
  rw [haux, haux, h]

/-- C10: the GAT layer never reads edge weights — two graphs with the
same node count, node features and weight-free edge data (endpoints and
direction) produce identical GAT outputs even if their edge weights
differ. -/
theorem c10_weight_oblivious (E : ℚ → ℚ) (p : GATParams) (act : ℚ → ℚ)
    (g₁ g₂ : Graph) (hn : g₂.numNodes = g₁.numNodes)
    (hfeat : g₂.feat = g₁.feat)
    (hsh : g₂.edges.map edgeShape = g₁.edges.map edgeShape) :
    gatForward E p act g₂ g₂.feat = gatForward E p act g₁ g₁.feat := by
  rw [gatForward, gatForward, hn, hfeat]
  apply List.map_congr_left
  intro v _
  have hinb : (inbound g₂.edges v).map edgeShape =
      (inbound g₁.edges v).map edgeShape := by
    rw [inbound_map_shape, inbound_map_shape, hsh]
  rw [gatNode, gatNode, gatAlphas, gatAlphas, gatLogits, gatLogits, gatZs, gatZs]
  have hEs : (inbound g₂.edges v).map (gatEdgeE p g₁.feat) =
      (inbound g₁.edges v).map (gatEdgeE p g₁.feat) :=
    map_factor
      (fun s => leakyRelu (dot p.aAttn (gatZ p g₁.feat s.1 ++ gatZ p g₁.feat s.2.1)))
      hinb
  have hZs : (inbound g₂.edges v).map (fun e => gatZ p g₁.feat e.src) =
      (inbound g₁.edges v).map (fun e => gatZ p g₁.feat e.src) :=
    map_factor (fun s => gatZ p g₁.feat s.1) hinb
  rw [hEs, hZs]

/-- Witness for C10: same topology, weights 5 versus 7. -/
theorem c10_weight_oblivious_witness :
    (gW2.numNodes = gW1.numNodes ∧ gW2.feat = gW1.feat ∧
      gW2.edges.map edgeShape = gW1.edges.map edgeShape) ∧
    gatForward expOne pGat relu gW2 gW2.feat =
      gatForward expOne pGat relu gW1 gW1.feat :=
  ⟨⟨rfl, rfl, rfl⟩, c10_weight_oblivious expOne pGat relu gW1 gW2 rfl rfl rfl⟩

lemma addVec_assoc (a b c : List ℚ) : addVec (addVec a b) c = addVec a (addVec b c) := by
  induction a generalizing b c with
  | nil => simp [addVec]
  | cons x xs ih =>
    cases b with
    | nil => simp [addVec]
    | cons y ys =>
      cases c with
      | nil => simp [addVec]
      | cons z zs =>
        simp only [addVec, List.zipWith_cons_cons] at ih ⊢
        rw [add_assoc]
        exact congrArg _ (ih ys zs)

lemma addVec_zero_right (x : List ℚ) : addVec x (List.replicate x.length 0) = x := by
  induction x with
  | nil => rfl
  | cons a l ih =>
    show (a + 0) :: addVec l (List.replicate l.length 0) = a :: l
    rw [add_zero, ih]

lemma addVec_zero_left (x : List ℚ) : addVec (List.replicate x.length 0) x = x := by
  induction x with
  | nil => rfl
  | cons a l ih =>
    show (0 + a) :: addVec (List.replicate l.length 0) l = a :: l
    rw [zero_add, ih]

lemma addVec_replicate_left (d : ℕ) (x : List ℚ) (h : x.length = d) :
    addVec (List.replicate d 0) x = x := by
  rw [← h]
  exact addVec_zero_left x

lemma scaleVec_zero (x : List ℚ) : scaleVec 0 x = List.replicate x.length 0 := by
  rw [scaleVec]
  have h : x.map (fun a => (0 : ℚ) * a) = x.map (Function.const ℚ 0) :=
    List.map_congr_left (fun a _ => zero_mul a)
  rw [h, List.map_const]

lemma foldr_addVec_length (d : ℕ) (vs : List (List ℚ))
    (hw : ∀ v ∈ vs, v.length = d) :
    (vs.foldr addVec (List.replicate d 0)).length = d := by
  induction vs with
  | nil => simp
  | cons v l ih =>
    simp only [List.foldr_cons]
    rw [addVec, List.length_zipWith]
    rw [hw v (List.mem_cons_self v l), ih (fun x hx => hw x (List.mem_cons_of_mem v hx))]
    omega

lemma sumVecs_eq_foldr (d : ℕ) (vs : List (List ℚ))
    (hw : ∀ v ∈ vs, v.length = d) :
    sumVecs d vs = vs.foldr addVec (List.replicate d 0) := by
  have haux : ∀ (l : List (List ℚ)) (init : List ℚ), init.length = d →
      (∀ v ∈ l, v.length = d) →
      l.foldl addVec init = addVec init (l.foldr addVec (List.replicate d 0)) := by
    intro l
    induction l with
    | nil =>
      intro init hi _
      simp only [List.foldl_nil, List.foldr_nil]
      rw [← hi]
      exact (addVec_zero_right init).symm
    | cons w ws ih =>
      intro init hi hws
      simp only [List.foldl_cons, List.foldr_cons]
      have hlen : (addVec init w).length = d := by
        rw [addVec, List.length_zipWith, hi, hws w (List.mem_cons_self w ws)]
        omega
      rw [ih (addVec init w) hlen (fun x hx => hws x (List.mem_cons_of_mem w hx))]
      rw [addVec_assoc]
  cases vs with
  | nil => rfl
  | cons v l =>
    show l.foldl addVec v = (v :: l).foldr addVec (List.replicate d 0)
    rw [List.foldr_cons]
    exact haux l v (hw v (List.mem_cons_self v l)) (fun x hx => hw x (List.mem_cons_of_mem v hx))

lemma foldr_scale_filter (d : ℕ) (c : ℕ → ℚ) (pk : ℕ → Bool)
    (msgs : List (List ℚ × ℕ))
    (hw : ∀ m ∈ msgs, m.1.length = d)
    (hcs : ∀ m ∈ msgs, (pk m.2 = true ∧ c m.2 = 1) ∨ (pk m.2 = false ∧ c m.2 = 0)) :
    (msgs.map (fun m => scaleVec (c m.2) m.1)).foldr addVec (List.replicate d 0) =
      ((msgs.filter (fun m => pk m.2)).map (fun m => m.1)).foldr addVec
        (List.replicate d 0) := by
  induction msgs with
  | nil => rfl
  | cons m ms ih =>
    have hw' : ∀ x ∈ ms, x.1.length = d :=
      fun x hx => hw x (List.mem_cons_of_mem m hx)
    have hcs' : ∀ x ∈ ms, (pk x.2 = true ∧ c x.2 = 1) ∨ (pk x.2 = false ∧ c x.2 = 0) :=
      fun x hx => hcs x (List.mem_cons_of_mem m hx)
    rcases hcs m (List.mem_cons_self m ms) with ⟨hpk, hc⟩ | ⟨hpk, hc⟩
    · have hfil : List.filter (fun m => pk m.2) (m :: ms) =
          m :: List.filter (fun m => pk m.2) ms := by
        simp [List.filter_cons, hpk]
      rw [hfil]
      simp only [List.map_cons, List.foldr_cons]
      rw [hc, scaleVec_one, ih hw' hcs']
    · have hfil : List.filter (fun m => pk m.2) (m :: ms) =
          List.filter (fun m => pk m.2) ms := by
        simp [List.filter_cons, hpk]
      rw [hfil]
      simp only [List.map_cons, List.foldr_cons]
      rw [hc, scaleVec_zero, hw m (List.mem_cons_self m ms), ih hw' hcs']
      apply addVec_replicate_left
      apply foldr_addVec_length
      intro x hx
      obtain ⟨y, hy, rfl⟩ := List.mem_map.mp hx
      exact hw' y (List.mem_of_mem_filter hy)

lemma sumVecs_scale_filter (d : ℕ) (c : ℕ → ℚ) (pk : ℕ → Bool)
    (msgs : List (List ℚ × ℕ))
    (hw : ∀ m ∈ msgs, m.1.length = d)
    (hcs : ∀ m ∈ msgs, (pk m.2 = true ∧ c m.2 = 1) ∨ (pk m.2 = false ∧ c m.2 = 0)) :
    sumVecs d (msgs.map (fun m => scaleVec (c m.2) m.1)) =
      sumVecs d ((msgs.filter (fun m => pk m.2)).map (fun m => m.1)) := by
  rw [sumVecs_eq_foldr, sumVecs_eq_foldr]
  · exact foldr_scale_filter d c pk msgs hw hcs
  · intro v hv
    obtain ⟨y, hy, rfl⟩ := List.mem_map.mp hv
    exact hw y (List.mem_of_mem_filter hy)
  · intro v hv
    obtain ⟨y, hy, rfl⟩ := List.mem_map.mp hv
    rw [scaleVec, List.length_map]
    exact hw y hy

/-- C1 (amended): the BiDirectionalGCN forward pass computes
`H'[v] = activation(Linear(concat(H[v], h0, h1)))` where — contrary to
the claim — `h0` is the sum of incoming messages over edges with
direction flag 1 and `h1` the sum over edges with direction flag 0 (the
code multiplies messages by the raw flag before summing, then by the
flipped flag); a node with no incoming edges of a given direction gets
the zero vector for that component. -/
theorem c1_bigcn_amended (p : BiGCNParams) (act : ℚ → ℚ) (g : Graph)
    (h : List (List ℚ))
    (hdir : ∀ e ∈ g.edges, e.direction = 0 ∨ e.direction = 1)
    (hw : ∀ e ∈ g.edges, (h.getD e.src []).length = p.inFeats) :
    bigcnForward p act g h = bigcnSwapForward p act g h := by
  rw [bigcnForward, bigcnSwapForward]
  apply List.map_congr_left
  intro v _
  have hmw : ∀ m ∈ (inbound g.edges v).map (bigcnMessage h),
      m.1.length = p.inFeats := by
    intro m hm
    obtain ⟨e, he, rfl⟩ := List.mem_map.mp hm
    rw [bigcnMessage]
    simp only [scaleVec, List.length_map]
    exact hw e (List.mem_of_mem_filter he)
  have hmd : ∀ m ∈ (inbound g.edges v).map (bigcnMessage h),
      m.2 = 0 ∨ m.2 = 1 := by
    intro m hm
    obtain ⟨e, he, rfl⟩ := List.mem_map.mp hm
    exact hdir e (List.mem_of_mem_filter he)
  simp only [bigcnNode, bigcnSwapNode]
  rw [sumVecs_scale_filter p.inFeats (fun n => (n : ℚ)) (fun n => n == 1) _ hmw ?hcs1]
  rw [sumVecs_scale_filter p.inFeats (fun n => (((n + 1) % 2 : ℕ) : ℚ)) (fun n => n == 0)
    _ hmw ?hcs2]
  case hcs1 =>
    intro m hm
    rcases hmd m hm with h0 | h1
    · exact Or.inr ⟨by simp [h0], by simp [h0]⟩
    · exact Or.inl ⟨by simp [h1], by simp [h1]⟩
  case hcs2 =>
    intro m hm
    rcases hmd m hm with h0 | h1
    · exact Or.inl ⟨by simp [h0], by simp [h0]⟩
    · exact Or.inr ⟨by simp [h1], by simp [h1]⟩

/-- Witness for C1 (amended) on the concrete two-node graph. -/
theorem c1_bigcn_amended_witness :
    (∀ e ∈ gBi.edges, e.direction = 0 ∨ e.direction = 1) ∧
    (∀ e ∈ gBi.edges, (gBi.feat.getD e.src []).length = pBi.inFeats) ∧
    bigcnForward pBi relu gBi gBi.feat = bigcnSwapForward pBi relu gBi gBi.feat :=
  ⟨by decide, by decide,
   c1_bigcn_amended pBi relu gBi gBi.feat (by decide) (by decide)⟩

/-- Counterexample to C1 as stated: on a two-node graph with one
forward (direction 0) edge and a linear layer reading only the `h0`
slot, the code output differs from the spec formula that puts the
direction-0 sum in `h0`. -/
theorem c1_counterexample :
    bigcnForward pBi id gBi gBi.feat ≠ bigcnSpecForward pBi id gBi gBi.feat := by
  simp only [bigcnForward, bigcnSpecForward, bigcnNode, bigcnSpecNode, pBi, gBi,
    inbound, bigcnMessage, sumVecs, addVec, scaleVec, linear, dot, matVec,
    List.range_succ, List.range_zero, List.map_nil, List.nil_append, List.map_cons,
    List.map_append, List.filter, List.foldl, List.zipWith, List.sum_cons,
    List.sum_nil, List.getD, List.append_nil, List.singleton_append, id]
  norm_num

lemma pipelineH_length (E : ℚ → ℚ) (c : ClassifierParams) (g : Graph) :
    (pipelineH E c g).length = g.numNodes := by
  rw [pipelineH, gatForward, List.length_map, List.length_range]

lemma gatForwardDGL_length (E : ℚ → ℚ) (p : GATParams) (act : ℚ → ℚ)
    (g : Graph) (h : List (List ℚ)) :
    (gatForwardDGL E p act g h).length = g.numNodes := by
  rw [gatForwardDGL, List.length_map, List.length_range]

lemma classifierSingleDGL_empty (E : ℚ → ℚ) (c : ClassifierParams) (g : Graph)
    (he : g.edges = []) :
    classifierSingleDGL E c g = Except.error PipelineError.missingField := by
  have hb : bigcnForwardDGL c.gcn relu g g.feat =
      Except.error PipelineError.missingField := by
    simp [bigcnForwardDGL, he]
  simp [classifierSingleDGL, hb]

lemma classifierSingleDGL_small_edges (E : ℚ → ℚ) (c : ClassifierParams)
    (g : Graph) (he : g.edges ≠ []) (hN : g.numNodes < 8) :
    classifierSingleDGL E c g = Except.error PipelineError.emptyReduction := by
  obtain ⟨e, es', hee⟩ := List.exists_cons_of_ne_nil he
  have hb : bigcnForwardDGL c.gcn relu g g.feat =
      Except.ok (bigcnForward c.gcn relu g g.feat) := by
    simp [bigcnForwardDGL, hee]
  have hlen : (gatForwardDGL E c.gat relu g (bigcnForward c.gcn relu g g.feat)).length ≤ 7 := by
    rw [gatForwardDGL_length]
    omega
  have hr : readout (gatForwardDGL E c.gat relu g (bigcnForward c.gcn relu g g.feat)) =
      Except.error ReadoutError.emptyReduction := by
    rw [readout, if_pos hlen]
  simp [classifierSingleDGL, hb, hr, liftReadoutError]

/-- C9 (amended): a graph with fewer than 8 nodes makes the pipeline
fail, but never with the insufficient-nodes error the spec names:
with at least one edge the readout fails with the backend
empty-reduction error (the max over the empty remainder slice), and
with no edges at all the first layer already fails with the
missing-field error (`update_all` is a no-op, so `node_apply_func`
reads fields that were never created). -/
theorem c9_pipeline_fails (E : ℚ → ℚ) (c : ClassifierParams) (g : Graph)
    (hN : g.numNodes < 8) :
    classifierSingleDGL E c g =
      Except.error (if g.edges.isEmpty then PipelineError.missingField
        else PipelineError.emptyReduction) ∧
    classifierSingleDGL E c g ≠ Except.error PipelineError.insufficientNodes := by
  constructor
  · by_cases he : g.edges = []
    · rw [classifierSingleDGL_empty E c g he, he]
      rfl
    · rw [classifierSingleDGL_small_edges E c g he hN]
      have hne : g.edges.isEmpty = false := by
        cases hgE : g.edges with
        | nil => exact absurd hgE he
        | cons a l => rfl
      rw [hne]
      rfl
  · by_cases he : g.edges = []
    · rw [classifierSingleDGL_empty E c g he]
      simp
    · rw [classifierSingleDGL_small_edges E c g he hN]
      simp

/-- Witness for C9 (amended) on the concrete two-node one-edge graph. -/
theorem c9_pipeline_fails_witness :
    gBi.numNodes < 8 ∧
    (classifierSingleDGL expOne cTiny gBi =
        Except.error (if gBi.edges.isEmpty then PipelineError.missingField
          else PipelineError.emptyReduction) ∧
      classifierSingleDGL expOne cTiny gBi ≠
        Except.error PipelineError.insufficientNodes) :=
  ⟨by decide, c9_pipeline_fails expOne cTiny gBi (by decide)⟩

/-- Counterexample to C9 as stated: on graphs below the 8-node readout
threshold the pipeline fails, but never with the
`InsufficientNodesError` the claim names (the notebook defines no such
error): the edge-free two-node graph fails in the first layer with the
missing-field `KeyError`, and the two-node one-edge graph fails at the
readout with the backend empty-reduction error. -/
theorem c9_counterexample :
    classifierSingleDGL expOne cTiny gSmall =
      Except.error PipelineError.missingField ∧
    classifierSingleDGL expOne cTiny gBi =
      Except.error PipelineError.emptyReduction ∧
    PipelineError.missingField ≠ PipelineError.insufficientNodes ∧
    PipelineError.emptyReduction ≠ PipelineError.insufficientNodes :=
  ⟨classifierSingleDGL_empty expOne cTiny gSmall rfl,
   classifierSingleDGL_small_edges expOne cTiny gBi (by decide) (by decide),
   by decide, by decide⟩

lemma sumVecs_length (d : ℕ) (vs : List (List ℚ))
    (hw : ∀ v ∈ vs, v.length = d) : (sumVecs d vs).length = d := by
  rw [sumVecs_eq_foldr d vs hw]
  exact foldr_addVec_length d vs hw

lemma mem_zipWith_scale {as : List ℚ} {zs : List (List ℚ)} {x : List ℚ}
    (hx : x ∈ List.zipWith scaleVec as zs) : ∃ z ∈ zs, ∃ a, x = scaleVec a z := by
  induction as generalizing zs with
  | nil => simp at hx
  | cons a as ih =>
    cases zs with
    | nil => simp at hx
    | cons z zt =>
      rw [List.zipWith_cons_cons] at hx
      rcases List.mem_cons.mp hx with h | h
      · exact ⟨z, List.mem_cons_self z zt, a, h⟩
      · obtain ⟨z', hz', a', rfl⟩ := ih h
        exact ⟨z', List.mem_cons_of_mem z hz', a', rfl⟩

lemma gatZs_width (p : GATParams) (h : List (List ℚ)) (es : List Edge) (v : ℕ)
    (hfc : p.wFc.length = p.outDim) (hself : p.wSelf.length = p.outDim) :
    ∀ z ∈ gatZs p h es v, z.length = p.outDim := by
  intro z hz
  rw [gatZs] at hz
  rcases List.mem_append.mp hz with hm | hm
  · obtain ⟨e, -, rfl⟩ := List.mem_map.mp hm
    rw [gatZ, matVec, List.length_map]
    exact hfc
  · rw [List.mem_singleton] at hm
    subst hm
    rw [gatZSelf, matVec, List.length_map]
    exact hself

lemma gatNode_length (E : ℚ → ℚ) (p : GATParams) (act : ℚ → ℚ) (es : List Edge)
    (h : List (List ℚ)) (v : ℕ)
    (hfc : p.wFc.length = p.outDim) (hself : p.wSelf.length = p.outDim) :
    (gatNode E p act es h v).length = p.outDim := by
  rw [gatNode, List.length_map]
  apply sumVecs_length
  intro x hx
  obtain ⟨z, hz, a, rfl⟩ := mem_zipWith_scale hx
  rw [scaleVec, List.length_map]
  exact gatZs_width p h es v hfc hself z hz

lemma pipelineH_width (E : ℚ → ℚ) (c : ClassifierParams) (g : Graph)
    (hfc : c.gat.wFc.length = c.gat.outDim)
    (hself : c.gat.wSelf.length = c.gat.outDim) :
    ∀ r ∈ pipelineH E c g, r.length = c.gat.outDim := by
  intro r hr
  rw [pipelineH, gatForward] at hr
  obtain ⟨v, -, rfl⟩ := List.mem_map.mp hr
  exact gatNode_length E c.gat relu g.edges _ v hfc hself

lemma foldl_zipWith_max_length (d : ℕ) (init : List ℚ) (l : List (List ℚ))
    (hi : init.length = d) (hl : ∀ v ∈ l, v.length = d) :
    (l.foldl (List.zipWith max) init).length = d := by
  induction l generalizing init with
  | nil => exact hi
  | cons v t ih =>
    simp only [List.foldl_cons]
    apply ih
    · rw [List.length_zipWith, hi, hl v (List.mem_cons_self v t)]
      omega
    · exact fun x hx => hl x (List.mem_cons_of_mem v hx)

/-- C6: for a graph with at least 8 nodes the readout succeeds and
produces the first 7 node embeddings concatenated with the mean and the
max of the remaining embeddings, a flat vector of fixed width
`9 * hiddenDim` regardless of the node count. -/
theorem c6_readout_width (E : ℚ → ℚ) (c : ClassifierParams) (g : Graph)
    (hfc : c.gat.wFc.length = c.hiddenDim)
    (hself : c.gat.wSelf.length = c.hiddenDim)
    (hout : c.gat.outDim = c.hiddenDim) (hN : 8 ≤ g.numNodes) :
    readout (pipelineH E c g) = Except.ok (readoutVec (pipelineH E c g)) ∧
      (readoutVec (pipelineH E c g)).length = 9 * c.hiddenDim := by
  have hwidth : ∀ r ∈ pipelineH E c g, r.length = c.hiddenDim := by
    intro r hr
    rw [← hout]
    exact pipelineH_width E c g (by rw [hfc, hout]) (by rw [hself, hout]) r hr
  have hlen : (pipelineH E c g).length = g.numNodes := pipelineH_length E c g
  constructor
  · rw [readout, if_neg (by omega)]
  · rw [readoutVec, List.length_append, List.length_append]
    have h1 : ((pipelineH E c g).take 7).flatten.length = 7 * c.hiddenDim := by
      rw [List.length_flatten]
      have hrep : ((pipelineH E c g).take 7).map List.length =
          List.replicate 7 c.hiddenDim := by
        apply List.eq_replicate_iff.mpr
        constructor
        · rw [List.length_map, List.length_take]
          omega
        · intro b hb
          obtain ⟨r, hr, rfl⟩ := List.mem_map.mp hb
          exact hwidth r (List.mem_of_mem_take hr)
      rw [hrep, List.sum_replicate, smul_eq_mul]
    have hrest : (pipelineH E c g).drop 7 ≠ [] := by
      intro hnil
      have hdl := congrArg List.length hnil
      rw [List.length_drop] at hdl
      simp only [List.length_nil] at hdl
      omega
    obtain ⟨r, t, hrt⟩ := List.exists_cons_of_ne_nil hrest
    have hrw : r.length = c.hiddenDim := by
      apply hwidth
      apply List.mem_of_mem_drop
      rw [hrt]
      exact List.mem_cons_self r t
    have h2 : (meanVec ((pipelineH E c g).drop 7)).length = c.hiddenDim := by
      rw [meanVec, List.length_map, hrt]
      have hall : ∀ v ∈ r :: t, v.length = ((r :: t).headD []).length := by
        intro v hv
        show v.length = r.length
        rw [hrw]
        apply hwidth
        apply List.mem_of_mem_drop
        rw [hrt]
        exact hv
      rw [sumVecs_length _ _ hall]
      exact hrw
    have h3 : (maxVec ((pipelineH E c g).drop 7)).length = c.hiddenDim := by
      rw [hrt]
      show (t.foldl (List.zipWith max) r).length = c.hiddenDim
      apply foldl_zipWith_max_length c.hiddenDim r t hrw
      intro v hv
      apply hwidth
      apply List.mem_of_mem_drop
      rw [hrt]
      exact List.mem_cons_of_mem r hv
    rw [h1, h2, h3]
    ring

/-- Witness for C6 on a concrete eight-node graph. -/
theorem c6_readout_width_witness :
    (cTiny.gat.wFc.length = cTiny.hiddenDim ∧
      cTiny.gat.wSelf.length = cTiny.hiddenDim ∧
      cTiny.gat.outDim = cTiny.hiddenDim ∧ 8 ≤ g8.numNodes) ∧
    (readout (pipelineH expOne cTiny g8) =
        Except.ok (readoutVec (pipelineH expOne cTiny g8)) ∧
      (readoutVec (pipelineH expOne cTiny g8)).length = 9 * cTiny.hiddenDim) :=
  ⟨⟨rfl, rfl, rfl, by decide⟩,
   c6_readout_width expOne cTiny g8 rfl rfl rfl (by decide)⟩

lemma inbound_append (es es' : List Edge) (v : ℕ) :
    inbound (es ++ es') v = inbound es v ++ inbound es' v :=
  List.filter_append es es'

lemma inbound_shift_lt (n : ℕ) (es : List Edge) (v : ℕ) (hv : v < n) :
    inbound (es.map (shiftEdge n)) v = [] := by
  apply List.filter_eq_nil_iff.mpr
  intro e he
  obtain ⟨e', -, rfl⟩ := List.mem_map.mp he
  simp only [shiftEdge, beq_iff_eq]
  omega

lemma inbound_shift_add (n : ℕ) (es : List Edge) (u : ℕ) :
    inbound (es.map (shiftEdge n)) (n + u) = (inbound es u).map (shiftEdge n) := by
  rw [inbound, inbound]
  rw [@List.filter_map Edge Edge (fun e => e.dst == n + u) (shiftEdge n) es]
  congr 1
  apply List.filter_congr
  intro e _
  show ((shiftEdge n e).dst == n + u) = (e.dst == u)
  simp only [shiftEdge, beq_iff_eq]
  simp [Nat.add_right_inj]

lemma getD_append_shift {α : Type} (l l' : List α) (d : α) (n s : ℕ)
    (h : l.length = n) : (l ++ l').getD (n + s) d = l'.getD s d := by
  rw [List.getD_append_right _ _ _ _ (by omega)]
  congr 1
  omega

lemma bigcnNode_batch_left (p : BiGCNParams) (act : ℚ → ℚ) (g₁ g₂ : Graph)
    (h₁ h₂ : List (List ℚ)) (v : ℕ) (hv : v < g₁.numNodes)
    (hlen : h₁.length = g₁.numNodes)
    (hsrc : ∀ e ∈ g₁.edges, e.src < g₁.numNodes) :
    bigcnNode p act (batch2 g₁ g₂) (h₁ ++ h₂) v = bigcnNode p act g₁ h₁ v := by
  simp only [bigcnNode]
  have hinb : inbound (batch2 g₁ g₂).edges v = inbound g₁.edges v := by
    show inbound (g₁.edges ++ g₂.edges.map (shiftEdge g₁.numNodes)) v = _
    rw [inbound_append, inbound_shift_lt _ _ _ hv, List.append_nil]
  rw [hinb]
  have hmsg : (inbound g₁.edges v).map (bigcnMessage (h₁ ++ h₂)) =
      (inbound g₁.edges v).map (bigcnMessage h₁) := by
    apply List.map_congr_left
    intro e he
    rw [bigcnMessage, bigcnMessage]
    rw [List.getD_append _ _ _ _
      (by rw [hlen]; exact hsrc e (List.mem_of_mem_filter he))]
  rw [hmsg, List.getD_append _ _ _ _ (by omega)]

lemma bigcnNode_batch_right (p : BiGCNParams) (act : ℚ → ℚ) (g₁ g₂ : Graph)
    (h₁ h₂ : List (List ℚ)) (u : ℕ) (hlen : h₁.length = g₁.numNodes)
    (hdst : ∀ e ∈ g₁.edges, e.dst < g₁.numNodes) :
    bigcnNode p act (batch2 g₁ g₂) (h₁ ++ h₂) (g₁.numNodes + u) =
      bigcnNode p act g₂ h₂ u := by
  simp only [bigcnNode]
  have hinb : inbound (batch2 g₁ g₂).edges (g₁.numNodes + u) =
      (inbound g₂.edges u).map (shiftEdge g₁.numNodes) := by
    show inbound (g₁.edges ++ g₂.edges.map (shiftEdge g₁.numNodes)) _ = _
    rw [inbound_append, inbound_shift_add]
    have hnil : inbound g₁.edges (g₁.numNodes + u) = [] := by
      apply List.filter_eq_nil_iff.mpr
      intro e he
      have := hdst e he
      simp only [beq_iff_eq]
      omega
    rw [hnil, List.nil_append]
  rw [hinb]
  have hmsg : ((inbound g₂.edges u).map (shiftEdge g₁.numNodes)).map
      (bigcnMessage (h₁ ++ h₂)) = (inbound g₂.edges u).map (bigcnMessage h₂) := by
    rw [List.map_map]
    apply List.map_congr_left
    intro e _
    show bigcnMessage (h₁ ++ h₂) (shiftEdge g₁.numNodes e) = bigcnMessage h₂ e
    rw [bigcnMessage, bigcnMessage]
    show (scaleVec e.weight ((h₁ ++ h₂).getD (g₁.numNodes + e.src) []), e.direction) = _
    rw [getD_append_shift _ _ _ _ _ hlen]
  rw [hmsg, getD_append_shift _ _ _ _ _ hlen]

lemma bigcnForward_batch (p : BiGCNParams) (act : ℚ → ℚ) (g₁ g₂ : Graph)
    (h₁ h₂ : List (List ℚ)) (hlen : h₁.length = g₁.numNodes)
    (hsrc : ∀ e ∈ g₁.edges, e.src < g₁.numNodes)
    (hdst : ∀ e ∈ g₁.edges, e.dst < g₁.numNodes) :
    bigcnForward p act (batch2 g₁ g₂) (h₁ ++ h₂) =
      bigcnForward p act g₁ h₁ ++ bigcnForward p act g₂ h₂ := by
  rw [bigcnForward, bigcnForward, bigcnForward]
  show (List.range (g₁.numNodes + g₂.numNodes)).map _ = _
  rw [List.range_add, List.map_append, List.map_map]
  congr 1
  · apply List.map_congr_left
    intro v hv
    exact bigcnNode_batch_left p act g₁ g₂ h₁ h₂ v (List.mem_range.mp hv) hlen hsrc
  · apply List.map_congr_left
    intro u _
    show bigcnNode p act (batch2 g₁ g₂) (h₁ ++ h₂) (g₁.numNodes + u) = _
    exact bigcnNode_batch_right p act g₁ g₂ h₁ h₂ u hlen hdst

lemma gatZ_batch_left (p : GATParams) (h₁ h₂ : List (List ℚ)) (w : ℕ)
    (hw : w < h₁.length) : gatZ p (h₁ ++ h₂) w = gatZ p h₁ w := by
  rw [gatZ, gatZ, List.getD_append _ _ _ _ hw]

lemma gatZ_batch_right (p : GATParams) (h₁ h₂ : List (List ℚ)) (n s : ℕ)
    (hlen : h₁.length = n) : gatZ p (h₁ ++ h₂) (n + s) = gatZ p h₂ s := by
  rw [gatZ, gatZ, getD_append_shift _ _ _ _ _ hlen]

lemma gatNode_batch_left (E : ℚ → ℚ) (p : GATParams) (act : ℚ → ℚ)
    (g₁ g₂ : Graph) (h₁ h₂ : List (List ℚ)) (v : ℕ) (hv : v < g₁.numNodes)
    (hlen : h₁.length = g₁.numNodes)
    (hsrc : ∀ e ∈ g₁.edges, e.src < g₁.numNodes)
    (hdst : ∀ e ∈ g₁.edges, e.dst < g₁.numNodes) :
    gatNode E p act (batch2 g₁ g₂).edges (h₁ ++ h₂) v =
      gatNode E p act g₁.edges h₁ v := by
  have hinb : inbound (batch2 g₁ g₂).edges v = inbound g₁.edges v := by
    show inbound (g₁.edges ++ g₂.edges.map (shiftEdge g₁.numNodes)) v = _
    rw [inbound_append, inbound_shift_lt _ _ _ hv, List.append_nil]
  have hself : gatZSelf p (h₁ ++ h₂) v = gatZSelf p h₁ v := by
    rw [gatZSelf, gatZSelf, List.getD_append _ _ _ _ (by omega)]
  have heself : gatESelf p (h₁ ++ h₂) v = gatESelf p h₁ v := by
    rw [gatESelf, gatESelf, hself]
  have hE : (inbound g₁.edges v).map (gatEdgeE p (h₁ ++ h₂)) =
      (inbound g₁.edges v).map (gatEdgeE p h₁) := by
    apply List.map_congr_left
    intro e he
    have heg := List.mem_of_mem_filter he
    rw [gatEdgeE, gatEdgeE]
    rw [gatZ_batch_left p h₁ h₂ e.src (by rw [hlen]; exact hsrc e heg)]
    rw [gatZ_batch_left p h₁ h₂ e.dst (by rw [hlen]; exact hdst e heg)]
  have hZ : (inbound g₁.edges v).map (fun e => gatZ p (h₁ ++ h₂) e.src) =
      (inbound g₁.edges v).map (fun e => gatZ p h₁ e.src) := by
    apply List.map_congr_left
    intro e he
    exact gatZ_batch_left p h₁ h₂ e.src
      (by rw [hlen]; exact hsrc e (List.mem_of_mem_filter he))
  rw [gatNode, gatNode, gatAlphas, gatAlphas, gatLogits, gatLogits, gatZs, gatZs]
  rw [hinb, hself, heself, hE, hZ]

lemma gatNode_batch_right (E : ℚ → ℚ) (p : GATParams) (act : ℚ → ℚ)
    (g₁ g₂ : Graph) (h₁ h₂ : List (List ℚ)) (u : ℕ)
    (hlen : h₁.length = g₁.numNodes)
    (hdst : ∀ e ∈ g₁.edges, e.dst < g₁.numNodes) :
    gatNode E p act (batch2 g₁ g₂).edges (h₁ ++ h₂) (g₁.numNodes + u) =
      gatNode E p act g₂.edges h₂ u := by
  have hinb : inbound (batch2 g₁ g₂).edges (g₁.numNodes + u) =
      (inbound g₂.edges u).map (shiftEdge g₁.numNodes) := by
    show inbound (g₁.edges ++ g₂.edges.map (shiftEdge g₁.numNodes)) _ = _
    rw [inbound_append, inbound_shift_add]
    have hnil : inbound g₁.edges (g₁.numNodes + u) = [] := by
      apply List.filter_eq_nil_iff.mpr
      intro e he
      have := hdst e he
      simp only [beq_iff_eq]
      omega
    rw [hnil, List.nil_append]
  have hself : gatZSelf p (h₁ ++ h₂) (g₁.numNodes + u) = gatZSelf p h₂ u := by
    rw [gatZSelf, gatZSelf, getD_append_shift _ _ _ _ _ hlen]
  have heself : gatESelf p (h₁ ++ h₂) (g₁.numNodes + u) = gatESelf p h₂ u := by
    rw [gatESelf, gatESelf, hself]
  have hE : ((inbound g₂.edges u).map (shiftEdge g₁.numNodes)).map
      (gatEdgeE p (h₁ ++ h₂)) = (inbound g₂.edges u).map (gatEdgeE p h₂) := by
    rw [List.map_map]
    apply List.map_congr_left
    intro e _
    show gatEdgeE p (h₁ ++ h₂) (shiftEdge g₁.numNodes e) = gatEdgeE p h₂ e
    rw [gatEdgeE, gatEdgeE]
    show leakyRelu (dot p.aAttn (gatZ p (h₁ ++ h₂) (g₁.numNodes + e.src) ++
      gatZ p (h₁ ++ h₂) (g₁.numNodes + e.dst))) = _
    rw [gatZ_batch_right p h₁ h₂ _ _ hlen, gatZ_batch_right p h₁ h₂ _ _ hlen]
  have hZ : ((inbound g₂.edges u).map (shiftEdge g₁.numNodes)).map
      (fun e => gatZ p (h₁ ++ h₂) e.src) =
      (inbound g₂.edges u).map (fun e => gatZ p h₂ e.src) := by
    rw [List.map_map]
    apply List.map_congr_left
    intro e _
    show gatZ p (h₁ ++ h₂) (g₁.numNodes + e.src) = gatZ p h₂ e.src
    exact gatZ_batch_right p h₁ h₂ _ _ hlen
  rw [gatNode, gatNode, gatAlphas, gatAlphas, gatLogits, gatLogits, gatZs, gatZs]
  rw [hinb, hself, heself, hE, hZ]

lemma gatForward_batch (E : ℚ → ℚ) (p : GATParams) (act : ℚ → ℚ)
    (g₁ g₂ : Graph) (h₁ h₂ : List (List ℚ)) (hlen : h₁.length = g₁.numNodes)
    (hsrc : ∀ e ∈ g₁.edges, e.src < g₁.numNodes)
    (hdst : ∀ e ∈ g₁.edges, e.dst < g₁.numNodes) :
    gatForward E p act (batch2 g₁ g₂) (h₁ ++ h₂) =
      gatForward E p act g₁ h₁ ++ gatForward E p act g₂ h₂ := by
  rw [gatForward, gatForward, gatForward]
  show (List.range (g₁.numNodes + g₂.numNodes)).map _ = _
  rw [List.range_add, List.map_append, List.map_map]
  congr 1
  · apply List.map_congr_left
    intro v hv
    exact gatNode_batch_left E p act g₁ g₂ h₁ h₂ v (List.mem_range.mp hv) hlen hsrc hdst
  · apply List.map_congr_left
    intro u _
    show gatNode E p act (batch2 g₁ g₂).edges (h₁ ++ h₂) (g₁.numNodes + u) = _
    exact gatNode_batch_right E p act g₁ g₂ h₁ h₂ u hlen hdst

lemma pipelineH_batch (E : ℚ → ℚ) (c : ClassifierParams) (g₁ g₂ : Graph)
    (hsrc : ∀ e ∈ g₁.edges, e.src < g₁.numNodes)
    (hdst : ∀ e ∈ g₁.edges, e.dst < g₁.numNodes)
    (hf₁ : g₁.feat.length = g₁.numNodes) :
    pipelineH E c (batch2 g₁ g₂) = pipelineH E c g₁ ++ pipelineH E c g₂ := by
  rw [pipelineH, pipelineH, pipelineH]
  have hfeat : (batch2 g₁ g₂).feat = g₁.feat ++ g₂.feat := rfl
  rw [hfeat]
  rw [bigcnForward_batch c.gcn relu g₁ g₂ g₁.feat g₂.feat hf₁ hsrc hdst]
  exact gatForward_batch E c.gat relu g₁ g₂ _ _
    (by rw [bigcnForward, List.length_map, List.length_range]) hsrc hdst

/-- C7: batching two well-formed graphs into one disjoint-union graph
and running the full pipeline (both layers plus readout and head) gives
per-graph readout results and logits identical to running each graph
individually, in the same order. -/
theorem c7_batch_equivalence (E : ℚ → ℚ) (c : ClassifierParams) (g₁ g₂ : Graph)
    (hwf₁ : g₁.wf) (hwf₂ : g₂.wf) (hsize : g₁.numNodes ≠ g₂.numNodes)
    (F : ℕ) (hF₁ : ∀ r ∈ g₁.feat, r.length = F)
    (hF₂ : ∀ r ∈ g₂.feat, r.length = F) :
    readout ((pipelineH E c (batch2 g₁ g₂)).take g₁.numNodes) =
      readout (pipelineH E c g₁) ∧
    readout ((pipelineH E c (batch2 g₁ g₂)).drop g₁.numNodes) =
      readout (pipelineH E c g₂) ∧
    classifierBatch2 E c g₁ g₂ =
      (classifierSingle E c g₁, classifierSingle E c g₂) := by
  obtain ⟨hb₁, hf₁⟩ := hwf₁
  have hsrc : ∀ e ∈ g₁.edges, e.src < g₁.numNodes := fun e he => (hb₁ e he).1
  have hdst : ∀ e ∈ g₁.edges, e.dst < g₁.numNodes := fun e he => (hb₁ e he).2
  have hP := pipelineH_batch E c g₁ g₂ hsrc hdst hf₁
  have hl₁ : (pipelineH E c g₁).length = g₁.numNodes := pipelineH_length E c g₁
  have htake : (pipelineH E c (batch2 g₁ g₂)).take g₁.numNodes = pipelineH E c g₁ := by
    rw [hP, ← hl₁, List.take_left]
  have hdrop : (pipelineH E c (batch2 g₁ g₂)).drop g₁.numNodes = pipelineH E c g₂ := by
    rw [hP, ← hl₁, List.drop_left]
  refine ⟨by rw [htake], by rw [hdrop], ?_⟩
  simp only [classifierBatch2, classifierSingle]
  rw [htake, hdrop]

/-- Witness for C7 on two concrete graphs of sizes 1 and 2. -/
theorem c7_batch_equivalence_witness :
    (gIso.wf ∧ gSmall.wf ∧ gIso.numNodes ≠ gSmall.numNodes ∧
      (∀ r ∈ gIso.feat, r.length = 1) ∧ (∀ r ∈ gSmall.feat, r.length = 1)) ∧
    classifierBatch2 expOne cTiny gIso gSmall =
      (classifierSingle expOne cTiny gIso, classifierSingle expOne cTiny gSmall) :=
  ⟨⟨⟨by decide, by decide⟩, ⟨by decide, by decide⟩, by decide, by decide, by decide⟩,
   (c7_batch_equivalence expOne cTiny gIso gSmall ⟨by decide, by decide⟩
     ⟨by decide, by decide⟩ (by decide) 1 (by decide) (by decide)).2.2⟩

end BizGraph

